import Mathlib

set_option linter.unusedSectionVars false

/-!
Shallow embedding of `BaseQGT` (qiskit/algorithms/gradients/base_qgt.py):
the argument handling and validation of `run`, the gradient-circuit cache of
`_preprocess`, and the chain-rule aggregation and symmetry completion of
`_postprocess`.

Parameters are modelled as natural numbers.  The numeric scalars (Python
floats and numpy complex numbers) are modelled over an arbitrary commutative
ring `α`: a complex scalar is a pair of components (`CC α`).  General
theorems are stated for every `α`; concrete witnesses instantiate `α := ℤ`.
-/

/-- Complex scalars with components in `α`, modelling the numpy complex
numbers handled by `_postprocess`. -/
structure CC (α : Type) where
  re : α
  im : α
deriving DecidableEq, Repr

variable {α : Type} [CommRing α]

instance : Zero (CC α) := ⟨⟨0, 0⟩⟩

instance : Add (CC α) := ⟨fun x y => ⟨x.re + y.re, x.im + y.im⟩⟩

instance : Neg (CC α) := ⟨fun x => ⟨-x.re, -x.im⟩⟩

instance : Sub (CC α) := ⟨fun x y => x + -y⟩

/-- Complex conjugation, modelling `numpy.conjugate`. -/
def CC.conj (x : CC α) : CC α := ⟨x.re, -x.im⟩

/-- Multiplication of a complex scalar by the real coefficient product, as in
`float(bound_coeff1) * float(bound_coeff2) * results.qgts[idx][...]`
(lines 276-282). -/
def CC.scale (c : α) (x : CC α) : CC α := ⟨c * x.re, c * x.im⟩

/-- A `parameter_map` coefficient: either a plain number, or a
`ParameterExpression` with free original parameters that `_postprocess` binds
to the given parameter values before casting to float (lines 260-275). -/
inductive Coeff (α : Type) where
  | const (c : α)
  | expr (f : (ℕ → α) → α)

/-- The data `run`, `_preprocess` and `_postprocess` read from a
`QuantumCircuit`: its ordered declared parameter list (`circuit.parameters`)
and its structural key (`_circuit_key(circuit)`). -/
structure Circuit where
  params : List ℕ
  key : ℕ

instance : Inhabited Circuit := ⟨⟨[], 0⟩⟩

/-- The data read from a cached `GradientCircuit`: the ordered parameter list
of the derived circuit (`gradient_circuit.gradient_circuit.parameters`) and
`gradient_circuit.parameter_map`, mapping each original parameter to its list
of (duplicated parameter, coefficient) pairs. -/
structure GradientCircuit (α : Type) where
  gParams : List ℕ
  parameter_map : ℕ → List (ℕ × Coeff α)

instance : Inhabited (GradientCircuit α) := ⟨⟨[], fun _ => []⟩⟩

/-- The derivative modes (`DerivativeType.REAL / IMAG / COMPLEX`). -/
inductive DerivativeType where
  | REAL
  | IMAG
  | COMPLEX
deriving DecidableEq, Repr

/-- Element storage into the result array allocated at lines 240-241:
`dtype = complex if self.derivative_type == DerivativeType.COMPLEX else float`.
Storing a complex scalar into a float-dtype array keeps only its real part. -/
def narrow (dt : DerivativeType) (z : CC α) : CC α :=
  if dt = DerivativeType.COMPLEX then z else ⟨z.re, 0⟩

/-- The binding environment used at lines 261-264 and 269-272:
`p: parameter_values_[circuit.parameters.data.index(p)]`. -/
def paramAssign (circ : Circuit) (values : List α) : ℕ → α :=
  fun p => values.getD (circ.params.indexOf p) 0

/-- Coefficient evaluation of lines 260-275: a `ParameterExpression` is bound
to the parameter values and cast to float, a plain number passes through. -/
def bindCoeff (assign : ℕ → α) : Coeff α → α
  | Coeff.const c => c
  | Coeff.expr f => f assign

/-- Modelled from the spec: `_make_gradient_parameter_set`
(qiskit.algorithms.gradients.utils, not among the sources) produces the
induced subset of duplicated parameters: `g` belongs to it iff some requested
original parameter `p` has a pair `(g, coeff)` in `parameter_map[p]`.
The requested parameter set `S` is a Python set; it is modelled as a list
used only through membership. -/
def gradientParameterSet (gc : GradientCircuit α) (S : List ℕ) (g : ℕ) : Bool :=
  S.any (fun p => ((gc.parameter_map p).map Prod.fst).contains g)

/-- Lines 247-252: `g_parameter_indices`, the duplicated parameters of the
gradient circuit filtered to the induced subset, in the gradient circuit's
declared order. -/
def gParameterIndices (gc : GradientCircuit α) (S : List ℕ) : List ℕ :=
  gc.gParams.filter (fun g => gradientParameterSet gc S g)

/-- Line 252: the index of a duplicated parameter in `g_parameter_indices`. -/
def gIdx (gc : GradientCircuit α) (S : List ℕ) (g : ℕ) : ℕ :=
  (gParameterIndices gc S).indexOf g

/-- Line 246: `parameter_indices`, the requested original parameters in the
circuit's declared order. -/
def parameterIndices (circ : Circuit) (S : List ℕ) : List ℕ :=
  circ.params.filter (fun p => S.contains p)

/-- The list of contributions accumulated into `qgt[row, col]` by the double
loop of lines 256-282, for the original parameter pair `(p, q)`:
one term `coeff1 * coeff2 * raw[g_idx(g1), g_idx(g2)]` per pair of entries of
`parameter_map[p]` and `parameter_map[q]`. -/
def pairTerms (circ : Circuit) (gc : GradientCircuit α) (values : List α)
    (raw : ℕ → ℕ → CC α) (S : List ℕ) (p q : ℕ) : List (CC α) :=
  (gc.parameter_map p).flatMap (fun g1 =>
    (gc.parameter_map q).map (fun g2 =>
      CC.scale (bindCoeff (paramAssign circ values) g1.2 *
        bindCoeff (paramAssign circ values) g2.2)
        (raw (gIdx gc S g1.1) (gIdx gc S g2.1))))

/-- The in-place accumulation `qgt[row, col] += term` of lines 276-282: each
store into the array narrows to the array's element type (line 240-241). -/
def accumulate (dt : DerivativeType) (terms : List (CC α)) : CC α :=
  terms.foldl (fun acc t => narrow dt (acc + t)) 0

/-- The matrix after the accumulation loop (lines 254-282) and before
symmetry completion: entry `(i, j)` is filled for `i ≤ j < n` with
`n = len(parameter_indices)` (`np.triu_indices`), all other entries stay at
their zero initialization. -/
def qgtPre (dt : DerivativeType) (circ : Circuit) (gc : GradientCircuit α)
    (values : List α) (raw : ℕ → ℕ → CC α) (S : List ℕ) (i j : ℕ) : CC α :=
  let pI := parameterIndices circ S
  if i ≤ j ∧ j < pI.length then
    accumulate dt (pairTerms circ gc values raw S (pI.getD i 0) (pI.getD j 0))
  else 0

/-- The strict upper triangle `np.triu(M, k=1)` of a matrix. -/
def triuStrict (M : ℕ → ℕ → CC α) (i j : ℕ) : CC α :=
  if i < j then M i j else 0

/-- The symmetry-completion step of lines 283-286:
`qgt += -1 * np.triu(qgt, k=1).T` in imaginary mode and
`qgt += np.triu(qgt, k=1).conjugate().T` otherwise, elementwise. -/
def symmetryCompletion (dt : DerivativeType) (M : ℕ → ℕ → CC α) (i j : ℕ) :
    CC α :=
  M i j +
    (if dt = DerivativeType.IMAG then -(triuStrict M j i)
     else (triuStrict M j i).conj)

/-- The final result matrix produced by `_postprocess` for one circuit. -/
def qgtFinal (dt : DerivativeType) (circ : Circuit) (gc : GradientCircuit α)
    (values : List α) (raw : ℕ → ℕ → CC α) (S : List ℕ) (i j : ℕ) : CC α :=
  symmetryCompletion dt (qgtPre dt circ gc values raw S) i j

/-- The `ValueError`s raised by `BaseQGT._validate_arguments`
(lines 313-332), distinguished by their messages. -/
inductive ValidationError where
  | circuitsValuesMismatch (nc nv : ℕ)
  | circuitsSetsMismatch (nc ns : ℕ)
  | unparameterized (i : ℕ)
  | valuesCountMismatch (i : ℕ) (nv np : ℕ)
deriving DecidableEq, Repr

/-- The per-circuit validation loop of lines 325-332: for the `i`-th circuit,
an unparameterized circuit is reported first, then a parameter-value count
mismatch. -/
def validateLoop : ℕ → List (Circuit × List α) → Except ValidationError Unit
  | _, [] => Except.ok ()
  | i, (c, v) :: rest =>
    if c.params.length = 0 then Except.error (ValidationError.unparameterized i)
    else if v.length ≠ c.params.length then
      Except.error
        (ValidationError.valuesCountMismatch i v.length c.params.length)
    else validateLoop (i + 1) rest

/-- `BaseQGT._validate_arguments` (lines 296-332). -/
def validateArguments (circuits : List Circuit)
    (parameter_values : List (List α)) (parameter_sets : List (List ℕ)) :
    Except ValidationError Unit :=
  if circuits.length ≠ parameter_values.length then
    Except.error (ValidationError.circuitsValuesMismatch circuits.length
      parameter_values.length)
  else if circuits.length ≠ parameter_sets.length then
    Except.error (ValidationError.circuitsSetsMismatch circuits.length
      parameter_sets.length)
  else validateLoop 0 (circuits.zip parameter_values)

/-- The payload handed by `run` to the `AlgorithmJob` at line 162. -/
structure JobSpec (α : Type) where
  circuits : List Circuit
  parameter_values : List (List α)
  parameter_sets : List (List ℕ)

/-- Lines 145-155 of `run`: when `parameters` is `None` all declared
parameters of each circuit are requested; otherwise a `None` entry selects
all declared parameters of the corresponding circuit.  Python converts each
selection with `set(...)`; here the list stands for that set and is only ever
used through membership. -/
def makeParameterSets (circuits : List Circuit)
    (parameters : Option (List (Option (List ℕ)))) : List (List ℕ) :=
  match parameters with
  | none => circuits.map (fun c => c.params)
  | some ps => ps.mapIdx (fun i po => po.getD (circuits.getD i default).params)

/-- The `circuits` argument of `run`: a bare `QuantumCircuit` or a sequence
of circuits. -/
inductive CircuitsArg where
  | single (c : Circuit)
  | many (cs : List Circuit)

/-- Lines 141-143 of `run`: a single bare circuit is wrapped into a
one-element tuple. -/
def coerceCircuits : CircuitsArg → List Circuit
  | CircuitsArg.single c => [c]
  | CircuitsArg.many cs => cs

/-- The validation part of `run` (lines 145-164): derive the requested
parameter sets, validate, and only then build the job payload. -/
def runFull (circuits : List Circuit) (parameter_values : List (List α))
    (parameters : Option (List (Option (List ℕ)))) :
    Except ValidationError (JobSpec α) :=
  let parameter_sets := makeParameterSets circuits parameters
  match validateArguments circuits parameter_values parameter_sets with
  | Except.error e => Except.error e
  | Except.ok _ => Except.ok ⟨circuits, parameter_values, parameter_sets⟩

/-- `run` with the flexible `circuits` argument of lines 141-143. -/
def runFlexible (arg : CircuitsArg) (parameter_values : List (List α))
    (parameters : Option (List (Option (List ℕ)))) :
    Except ValidationError (JobSpec α) :=
  runFull (coerceCircuits arg) parameter_values parameters

/-- One round of the gradient-circuit cache of `_preprocess` (lines 204-208):
look the circuit's structural key up, build and insert on a miss.  `build`
stands for `_assign_unique_parameters(translator(circuit))`; the boolean
records whether a rebuild happened. -/
def preprocessStep (build : Circuit → GradientCircuit α)
    (cache : List (ℕ × GradientCircuit α)) (c : Circuit) :
    (GradientCircuit α × Bool) × List (ℕ × GradientCircuit α) :=
  match cache.lookup c.key with
  | some gcirc => ((gcirc, false), cache)
  | none => ((build c, true), (c.key, build c) :: cache)

/-- The cache-threading loop of `_preprocess` over a batch of circuits. -/
def preprocessAll (build : Circuit → GradientCircuit α) :
    List (ℕ × GradientCircuit α) → List Circuit →
    List (GradientCircuit α) × List (ℕ × GradientCircuit α)
  | cache, [] => ([], cache)
  | cache, c :: cs =>
    let r := preprocessStep build cache c
    let rest := preprocessAll build r.2 cs
    (r.1.1 :: rest.1, rest.2)

/-- The control flow of a batch request: `run` validates before submitting
the job; only the submitted job later touches the gradient-circuit cache
(`_preprocess`) and contacts the estimator.  The third component lists the
job payloads submitted towards the oracle. -/
def pipeline (build : Circuit → GradientCircuit α)
    (cache : List (ℕ × GradientCircuit α)) (circuits : List Circuit)
    (parameter_values : List (List α)) (parameter_sets : List (List ℕ)) :
    Except ValidationError (List (GradientCircuit α)) ×
      List (ℕ × GradientCircuit α) × List (JobSpec α) :=
  match validateArguments circuits parameter_values parameter_sets with
  | Except.error e => (Except.error e, cache, [])
  | Except.ok _ =>
    let r := preprocessAll build cache circuits
    (Except.ok r.1, r.2, [⟨circuits, parameter_values, parameter_sets⟩])

/-- Modelled from the spec: the reference numeric behaviour of §4.4 keeps
full complex arithmetic while accumulating the loop contributions. -/
def accumulateSpecComplex (terms : List (CC α)) : CC α :=
  terms.foldl (· + ·) 0

/-- Modelled from the spec: the pre-completion matrix under full complex
accumulation, before any narrowing. -/
def qgtPreSpecComplex (circ : Circuit) (gc : GradientCircuit α)
    (values : List α) (raw : ℕ → ℕ → CC α) (S : List ℕ) (i j : ℕ) : CC α :=
  let pI := parameterIndices circ S
  if i ≤ j ∧ j < pI.length then
    accumulateSpecComplex
      (pairTerms circ gc values raw S (pI.getD i 0) (pI.getD j 0))
  else 0

/-- Modelled from the spec: the result matrix when complex accumulation is
kept throughout the loop and narrowing to the output element type happens
once, at the symmetry-completion/typing step. -/
def qgtFinalSpecNarrowLate (dt : DerivativeType) (circ : Circuit)
    (gc : GradientCircuit α) (values : List α) (raw : ℕ → ℕ → CC α)
    (S : List ℕ) (i j : ℕ) : CC α :=
  narrow dt (symmetryCompletion dt (qgtPreSpecComplex circ gc values raw S) i j)

/-- One-parameter circuit for the symmetry-law instances. -/
def exCircuitC4 : Circuit := ⟨[0], 13⟩

/-- Gradient circuit with a single duplicated parameter. -/
def exGradC4 : GradientCircuit ℤ :=
  ⟨[0], fun p => if p = 0 then [(0, Coeff.const 1)] else []⟩

/-- Raw tensor whose entries are purely imaginary. -/
def exRawImagDiag : ℕ → ℕ → CC ℤ := fun _ _ => ⟨0, 1⟩

/-- The zero raw tensor. -/
def exRawZero : ℕ → ℕ → CC ℤ := fun _ _ => 0

/-- A concrete matrix with nonzero imaginary parts. -/
def exMatC5 : ℕ → ℕ → CC ℤ := fun i j => ⟨(i : ℤ) + 2 * j, 1⟩

/-- One-parameter circuit whose parameter is duplicated twice. -/
def exCircuitC1 : Circuit := ⟨[0], 10⟩

/-- Gradient circuit mapping parameter `0` to two duplicated parameters. -/
def exGradC1 : GradientCircuit ℤ :=
  ⟨[0, 1], fun p =>
    if p = 0 then [(0, Coeff.const 1), (1, Coeff.const 1)] else []⟩

/-- Raw tensor with a zero below the diagonal at `(1, 0)`. -/
def exRawC1a : ℕ → ℕ → CC ℤ :=
  fun u v => if u = 1 ∧ v = 0 then ⟨0, 0⟩ else ⟨1, 0⟩

/-- Raw tensor equal to `exRawC1a` on the upper triangle but different below
the diagonal. -/
def exRawC1b : ℕ → ℕ → CC ℤ :=
  fun u v => if u = 1 ∧ v = 0 then ⟨5, 0⟩ else ⟨1, 0⟩

/-- Two-parameter circuit with one duplicated parameter each. -/
def exCircuitC1w : Circuit := ⟨[0, 1], 11⟩

/-- Gradient circuit with one duplicated parameter per original parameter,
listed in the circuit's parameter order. -/
def exGradC1w : GradientCircuit ℤ :=
  ⟨[2, 3], fun p =>
    if p = 0 then [(2, Coeff.const 1)]
    else if p = 1 then [(3, Coeff.const 1)] else []⟩

/-- Raw tensor constant on the upper triangle, `7` below the diagonal. -/
def exRawC1wa : ℕ → ℕ → CC ℤ :=
  fun u v => if u ≤ v then ⟨1, 0⟩ else ⟨7, 0⟩

/-- Raw tensor constant on the upper triangle, `9` below the diagonal. -/
def exRawC1wb : ℕ → ℕ → CC ℤ :=
  fun u v => if u ≤ v then ⟨1, 0⟩ else ⟨9, 0⟩

/-- Two-parameter circuit for the order-insensitivity witness. -/
def exCircuitC10 : Circuit := ⟨[0, 1], 15⟩

/-- Gradient circuit for the order-insensitivity witness. -/
def exGradC10 : GradientCircuit ℤ :=
  ⟨[2, 3, 4], fun p =>
    if p = 0 then [(2, Coeff.const 2), (3, Coeff.const 3)]
    else if p = 1 then [(4, Coeff.const 5)] else []⟩

/-- A raw tensor with distinct, partly imaginary entries. -/
def exRawC10 : ℕ → ℕ → CC ℤ := fun u v => ⟨(u : ℤ) + 2 * v, 3⟩

/-- A concrete builder standing for
`_assign_unique_parameters(translator(circuit))`. -/
def exBuild : Circuit → GradientCircuit ℤ :=
  fun c => ⟨c.params, fun p => [(p, Coeff.const 1)]⟩

/-- A circuit instance with structural key `42`. -/
def exCircuitC7a : Circuit := ⟨[5], 42⟩

/-- A second, separately constructed circuit with the same structural key. -/
def exCircuitC7b : Circuit := ⟨[5], 42⟩

/-- Two-parameter circuit for the subset-consistency witness. -/
def exCircuitC8 : Circuit := ⟨[0, 1], 16⟩

/-- Gradient circuit for the subset-consistency witness. -/
def exGradC8 : GradientCircuit ℤ :=
  ⟨[2, 3, 4], fun p =>
    if p = 0 then [(2, Coeff.const 1), (3, Coeff.const 1)]
    else if p = 1 then [(4, Coeff.const 1)] else []⟩

/-- Raw tensor of the subset request over the single duplicated parameter. -/
def exRawSubC8 : ℕ → ℕ → CC ℤ :=
  fun u v => if u = 0 ∧ v = 0 then ⟨6, 1⟩ else 0

/-- Raw tensor of the full request, agreeing with `exRawSubC8` on the shared
duplicated-parameter pair. -/
def exRawFullC8 : ℕ → ℕ → CC ℤ :=
  fun u v => if u = 2 ∧ v = 2 then ⟨6, 1⟩ else ⟨(u : ℤ), (v : ℤ)⟩

/-- The two-parameter circuit of the spec's end-to-end scenario. -/
def exCircuitC2 : Circuit := ⟨[0, 1], 12⟩

/-- The gradient circuit of the end-to-end scenario:
`parameter_map = {a: [(a1,1),(a2,1)], b: [(b1,1)]}` over the duplicated
parameters `[a1, a2, b1] = [2, 3, 4]`. -/
def exGradC2 : GradientCircuit ℤ :=
  ⟨[2, 3, 4], fun p =>
    if p = 0 then [(2, Coeff.const 1), (3, Coeff.const 1)]
    else if p = 1 then [(4, Coeff.const 1)] else []⟩

/-- The scenario raw tensor with its lower triangle filled Hermitian. -/
def exRawHermitian : ℕ → ℕ → CC ℤ := fun u v =>
  match u, v with
  | 0, 0 => ⟨1, 0⟩ | 0, 1 => ⟨2, 0⟩ | 0, 2 => ⟨3, 0⟩
  | 1, 0 => ⟨2, 0⟩ | 1, 1 => ⟨4, 0⟩ | 1, 2 => ⟨5, 0⟩
  | 2, 0 => ⟨3, 0⟩ | 2, 1 => ⟨5, 0⟩ | 2, 2 => ⟨6, 0⟩
  | _, _ => 0

/-- The scenario raw tensor with its lower triangle left at zero. -/
def exRawZeroLower : ℕ → ℕ → CC ℤ := fun u v =>
  match u, v with
  | 0, 0 => ⟨1, 0⟩ | 0, 1 => ⟨2, 0⟩ | 0, 2 => ⟨3, 0⟩
  | 1, 1 => ⟨4, 0⟩ | 1, 2 => ⟨5, 0⟩ | 2, 2 => ⟨6, 0⟩
  | _, _ => 0

theorem CC.ext2 {x y : CC α} (h1 : x.re = y.re) (h2 : x.im = y.im) : x = y := by
  cases x; cases y; cases h1; cases h2; rfl

@[simp] theorem CC.zero_re : (0 : CC α).re = 0 := rfl

@[simp] theorem CC.zero_im : (0 : CC α).im = 0 := rfl

@[simp] theorem CC.add_re (x y : CC α) : (x + y).re = x.re + y.re := rfl

@[simp] theorem CC.add_im (x y : CC α) : (x + y).im = x.im + y.im := rfl

@[simp] theorem CC.neg_re (x : CC α) : (-x).re = -x.re := rfl

@[simp] theorem CC.neg_im (x : CC α) : (-x).im = -x.im := rfl

@[simp] theorem CC.conj_re (x : CC α) : x.conj.re = x.re := rfl

@[simp] theorem CC.conj_im (x : CC α) : x.conj.im = -x.im := rfl

@[simp] theorem CC.zero_add (x : CC α) : 0 + x = x := by
  apply CC.ext2 <;> simp

@[simp] theorem CC.add_zero (x : CC α) : x + 0 = x := by
  apply CC.ext2 <;> simp

@[simp] theorem CC.conj_conj (x : CC α) : x.conj.conj = x := by
  apply CC.ext2 <;> simp

@[simp] theorem CC.conj_zero : (0 : CC α).conj = 0 := by
  apply CC.ext2 <;> simp

@[simp] theorem CC.neg_zero : -(0 : CC α) = 0 := by
  apply CC.ext2 <;> simp

@[simp] theorem CC.neg_neg (x : CC α) : - - x = x := by
  apply CC.ext2 <;> simp

@[simp] theorem narrow_zero (dt : DerivativeType) :
    narrow dt (0 : CC α) = 0 := by
  by_cases h : dt = DerivativeType.COMPLEX <;>
    apply CC.ext2 <;> simp [narrow, h]

theorem CC.conj_of_im_zero {x : CC α} (h : x.im = 0) : x.conj = x := by
  apply CC.ext2 <;> simp [h]

theorem narrow_add_narrow (dt : DerivativeType) (a t : CC α) :
    narrow dt (narrow dt a + t) = narrow dt (a + t) := by
  by_cases h : dt = DerivativeType.COMPLEX <;>
    simp [narrow, h]

theorem foldl_narrow (dt : DerivativeType) (terms : List (CC α)) :
    ∀ a : CC α,
      terms.foldl (fun acc t => narrow dt (acc + t)) (narrow dt a) =
        narrow dt (terms.foldl (· + ·) a) := by
  induction terms with
  | nil => intro a; rfl
  | cons t ts ih =>
    intro a
    show ts.foldl _ (narrow dt (narrow dt a + t)) = _
    rw [narrow_add_narrow, ih (a + t)]
    rfl

theorem accumulate_eq_narrow (dt : DerivativeType) (terms : List (CC α)) :
    accumulate dt terms = narrow dt (accumulateSpecComplex terms) := by
  have h := foldl_narrow dt terms (0 : CC α)
  rw [narrow_zero] at h
  exact h

theorem qgtPre_eq_narrow (dt : DerivativeType) (circ : Circuit)
    (gc : GradientCircuit α) (values : List α) (raw : ℕ → ℕ → CC α)
    (S : List ℕ) (i j : ℕ) :
    qgtPre dt circ gc values raw S i j =
      narrow dt (qgtPreSpecComplex circ gc values raw S i j) := by
  by_cases h : i ≤ j ∧ j < (parameterIndices circ S).length <;>
    simp [qgtPre, qgtPreSpecComplex, h, accumulate_eq_narrow]

theorem qgtPre_im_eq_zero {dt : DerivativeType}
    (h : dt ≠ DerivativeType.COMPLEX) (circ : Circuit)
    (gc : GradientCircuit α) (values : List α) (raw : ℕ → ℕ → CC α)
    (S : List ℕ) (i j : ℕ) :
    (qgtPre dt circ gc values raw S i j).im = 0 := by
  rw [qgtPre_eq_narrow]
  simp [narrow, h]

theorem qgtPre_lower_eq_zero (dt : DerivativeType) (circ : Circuit)
    (gc : GradientCircuit α) (values : List α) (raw : ℕ → ℕ → CC α)
    (S : List ℕ) {i j : ℕ} (h : j < i) :
    qgtPre dt circ gc values raw S i j = 0 := by
  have h' : ¬(i ≤ j ∧ j < (parameterIndices circ S).length) := by
    rintro ⟨h1, _⟩; omega
  simp [qgtPre, h']

/-- Claim C3: the coefficient products and raw-tensor entries are accumulated
as if in full complex arithmetic, and the result is narrowed to the output
element type (complex for `COMPLEX` mode, float otherwise) only at the
symmetry-completion/typing step: the per-store narrowing of the source never
changes the produced tensor. -/
theorem c3_complex_accumulation_narrow_late (dt : DerivativeType)
    (circ : Circuit) (gc : GradientCircuit α) (values : List α)
    (raw : ℕ → ℕ → CC α) (S : List ℕ) (i j : ℕ) :
    qgtFinal dt circ gc values raw S i j =
      qgtFinalSpecNarrowLate dt circ gc values raw S i j := by
  unfold qgtFinal qgtFinalSpecNarrowLate symmetryCompletion triuStrict
  rw [qgtPre_eq_narrow, qgtPre_eq_narrow]
  by_cases hc : dt = DerivativeType.COMPLEX
  · simp [narrow, hc]
  · by_cases him : dt = DerivativeType.IMAG <;>
      by_cases hji : j < i <;>
      apply CC.ext2 <;>
      simp [narrow, CC.conj, hc, him, hji]

theorem qgtFinal_upper (dt : DerivativeType) (circ : Circuit)
    (gc : GradientCircuit α) (values : List α) (raw : ℕ → ℕ → CC α)
    (S : List ℕ) {i j : ℕ} (h : i ≤ j) :
    qgtFinal dt circ gc values raw S i j = qgtPre dt circ gc values raw S i j := by
  have h' : ¬j < i := by omega
  by_cases hdt : dt = DerivativeType.IMAG <;>
    simp [qgtFinal, symmetryCompletion, triuStrict, h', hdt]

theorem qgtFinal_lower (dt : DerivativeType) (circ : Circuit)
    (gc : GradientCircuit α) (values : List α) (raw : ℕ → ℕ → CC α)
    (S : List ℕ) {i j : ℕ} (h : j < i) :
    qgtFinal dt circ gc values raw S i j =
      if dt = DerivativeType.IMAG then -(qgtPre dt circ gc values raw S j i)
      else (qgtPre dt circ gc values raw S j i).conj := by
  by_cases hdt : dt = DerivativeType.IMAG
  · subst hdt
    simp [qgtFinal, symmetryCompletion, triuStrict, h,
      qgtPre_lower_eq_zero DerivativeType.IMAG circ gc values raw S h]
  · simp [qgtFinal, symmetryCompletion, triuStrict, h, hdt,
      qgtPre_lower_eq_zero dt circ gc values raw S h]

/-- Claim C5: the symmetry-completion step applied once after the
accumulation loop computes
`tensor - transpose(strict_upper(tensor))` in imaginary mode and
`tensor + conjugate(transpose(strict_upper(tensor)))` in every other mode;
on the accumulated matrix this sets the lower triangle to the (negated or
conjugated) transpose of the strict upper triangle and leaves the diagonal
as computed. -/
theorem c5_symmetry_completion_step (dt : DerivativeType) (M : ℕ → ℕ → CC α)
    (circ : Circuit) (gc : GradientCircuit α) (values : List α)
    (raw : ℕ → ℕ → CC α) (S : List ℕ) (i j : ℕ) :
    (dt = DerivativeType.IMAG →
      symmetryCompletion dt M i j = M i j - triuStrict M j i) ∧
    (dt ≠ DerivativeType.IMAG →
      symmetryCompletion dt M i j = M i j + (triuStrict M j i).conj) ∧
    qgtFinal dt circ gc values raw S i j =
      symmetryCompletion dt (qgtPre dt circ gc values raw S) i j ∧
    (j < i → dt = DerivativeType.IMAG →
      qgtFinal dt circ gc values raw S i j =
        -(qgtPre dt circ gc values raw S j i)) ∧
    (j < i → dt ≠ DerivativeType.IMAG →
      qgtFinal dt circ gc values raw S i j =
        (qgtPre dt circ gc values raw S j i).conj) ∧
    symmetryCompletion dt M i i = M i i := by
  refine ⟨fun h => by simp [symmetryCompletion, h]; rfl,
    fun h => by simp [symmetryCompletion, h],
    rfl, fun hji h => ?_, fun hji h => ?_, ?_⟩
  · rw [qgtFinal_lower dt circ gc values raw S hji]; simp [h]
  · rw [qgtFinal_lower dt circ gc values raw S hji]; simp [h]
  · by_cases hdt : dt = DerivativeType.IMAG <;>
      simp [symmetryCompletion, triuStrict, hdt]

/-- Claim C4, amended: in real mode the tensor equals its conjugate
transpose unconditionally; in complex mode it equals its conjugate transpose
off the diagonal, and on a diagonal entry exactly if that accumulated entry
is real; in imaginary mode it equals its negated transpose off the diagonal,
and a diagonal entry vanishes (making the law hold there) exactly if the
accumulated diagonal entry is zero. -/
theorem c4_symmetry_laws (dt : DerivativeType) (circ : Circuit)
    (gc : GradientCircuit α) (values : List α) (raw : ℕ → ℕ → CC α)
    (S : List ℕ) (i j : ℕ) :
    (dt = DerivativeType.REAL →
      qgtFinal dt circ gc values raw S i j =
        (qgtFinal dt circ gc values raw S j i).conj) ∧
    (dt = DerivativeType.COMPLEX → i ≠ j →
      qgtFinal dt circ gc values raw S i j =
        (qgtFinal dt circ gc values raw S j i).conj) ∧
    (dt = DerivativeType.COMPLEX →
      (qgtPre dt circ gc values raw S i i).im = 0 →
      qgtFinal dt circ gc values raw S i i =
        (qgtFinal dt circ gc values raw S i i).conj) ∧
    (dt = DerivativeType.IMAG → i ≠ j →
      qgtFinal dt circ gc values raw S i j =
        -(qgtFinal dt circ gc values raw S j i)) ∧
    (dt = DerivativeType.IMAG → qgtPre dt circ gc values raw S i i = 0 →
      qgtFinal dt circ gc values raw S i i = 0 ∧
        qgtFinal dt circ gc values raw S i i =
          -(qgtFinal dt circ gc values raw S i i)) := by
  refine ⟨fun hdt => ?_, fun hdt hij => ?_, fun hdt him => ?_,
    fun hdt hij => ?_, fun hdt hz => ?_⟩
  · rcases Nat.lt_trichotomy i j with h | h | h
    · rw [qgtFinal_upper dt circ gc values raw S (Nat.le_of_lt h),
        qgtFinal_lower dt circ gc values raw S h]
      simp [hdt]
    · subst h
      rw [qgtFinal_upper dt circ gc values raw S (Nat.le_refl i)]
      exact (CC.conj_of_im_zero
        (qgtPre_im_eq_zero (by simp [hdt]) circ gc values raw S i i)).symm
    · rw [qgtFinal_upper dt circ gc values raw S (Nat.le_of_lt h),
        qgtFinal_lower dt circ gc values raw S h]
      simp [hdt]
  · rcases Nat.lt_trichotomy i j with h | h | h
    · rw [qgtFinal_upper dt circ gc values raw S (Nat.le_of_lt h),
        qgtFinal_lower dt circ gc values raw S h]
      simp [hdt]
    · exact absurd h hij
    · rw [qgtFinal_upper dt circ gc values raw S (Nat.le_of_lt h),
        qgtFinal_lower dt circ gc values raw S h]
      simp [hdt]
  · rw [qgtFinal_upper dt circ gc values raw S (Nat.le_refl i)]
    exact (CC.conj_of_im_zero him).symm
  · rcases Nat.lt_trichotomy i j with h | h | h
    · rw [qgtFinal_upper dt circ gc values raw S (Nat.le_of_lt h),
        qgtFinal_lower dt circ gc values raw S h]
      simp [hdt]
    · exact absurd h hij
    · rw [qgtFinal_upper dt circ gc values raw S (Nat.le_of_lt h),
        qgtFinal_lower dt circ gc values raw S h]
      simp [hdt]
  · rw [qgtFinal_upper dt circ gc values raw S (Nat.le_refl i), hz]
    simp

/-- Claim C4 counterexample: in complex mode a diagonal entry of the result
can be non-real (the completion step leaves the diagonal as accumulated), so
the result does not equal its conjugate transpose. -/
theorem c4_counterexample :
    qgtFinal DerivativeType.COMPLEX exCircuitC4 exGradC4 [0] exRawImagDiag
        [0] 0 0 ≠
      (qgtFinal DerivativeType.COMPLEX exCircuitC4 exGradC4 [0] exRawImagDiag
        [0] 0 0).conj := by
  decide

/-- Witness for the amended claim C4: a real-mode Hermitian-law instance and
an imaginary-mode zero-diagonal instance at concrete inputs. -/
theorem c4_symmetry_laws_witness :
    qgtFinal DerivativeType.REAL exCircuitC4 exGradC4 [0] exRawImagDiag
        [0] 0 1 =
      (qgtFinal DerivativeType.REAL exCircuitC4 exGradC4 [0] exRawImagDiag
        [0] 1 0).conj ∧
    qgtFinal DerivativeType.IMAG exCircuitC4 exGradC4 [0] exRawZero
        [0] 0 0 = 0 :=
  ⟨(c4_symmetry_laws DerivativeType.REAL exCircuitC4 exGradC4 [0]
      exRawImagDiag [0] 0 1).1 rfl,
    ((c4_symmetry_laws DerivativeType.IMAG exCircuitC4 exGradC4 [0]
      exRawZero [0] 0 0).2.2.2.2 rfl (by decide)).1⟩

/-- Witness for claim C5: the completion formulas at a concrete matrix with
nonzero imaginary parts, in imaginary and real mode. -/
theorem c5_symmetry_completion_step_witness :
    symmetryCompletion DerivativeType.IMAG exMatC5 1 0 =
      exMatC5 1 0 - triuStrict exMatC5 0 1 ∧
    symmetryCompletion DerivativeType.REAL exMatC5 2 2 = exMatC5 2 2 :=
  ⟨(c5_symmetry_completion_step DerivativeType.IMAG exMatC5 exCircuitC4
      exGradC4 [0] exRawZero [0] 1 0).1 rfl,
    (c5_symmetry_completion_step DerivativeType.REAL exMatC5 exCircuitC4
      exGradC4 [0] exRawZero [0] 2 2).2.2.2.2.2⟩

/-- Claim C1 counterexample: with a duplicated original parameter the
accumulation loop reads below the diagonal of the raw tensor, so two raw
tensors that agree on the whole upper triangle (diagonal included) can yield
different result tensors. -/
theorem c1_counterexample :
    (∀ u v : ℕ, u ≤ v → exRawC1a u v = exRawC1b u v) ∧
    qgtFinal DerivativeType.REAL exCircuitC1 exGradC1 [0] exRawC1a [0] 0 0 ≠
      qgtFinal DerivativeType.REAL exCircuitC1 exGradC1 [0] exRawC1b [0] 0 0 := by
  constructor
  · intro u v huv
    have h : ¬(u = 1 ∧ v = 0) := by omega
    simp [exRawC1a, exRawC1b, h]
  · decide

/-- Claim C1, amended: the aggregation stays inside the upper triangle of the
raw tensor only under extra assumptions; when every requested original
parameter has exactly one duplicated parameter and the duplicated-parameter
indices are monotone along the requested order, two raw tensors agreeing on
the upper triangle (diagonal included) produce equal result tensors. -/
theorem c1_upper_triangle_when_singleton_monotone (dt : DerivativeType)
    (circ : Circuit) (gc : GradientCircuit α) (values : List α)
    (S : List ℕ) (raw1 raw2 : ℕ → ℕ → CC α)
    (hsingle : ∀ p ∈ parameterIndices circ S, (gc.parameter_map p).length = 1)
    (hmono : ∀ i j : ℕ, i ≤ j → j < (parameterIndices circ S).length →
      gIdx gc S (((gc.parameter_map
          ((parameterIndices circ S).getD i 0)).getD 0 (0, Coeff.const 0)).1) ≤
      gIdx gc S (((gc.parameter_map
          ((parameterIndices circ S).getD j 0)).getD 0 (0, Coeff.const 0)).1))
    (hagree : ∀ u v : ℕ, u ≤ v → raw1 u v = raw2 u v) (i j : ℕ) :
    qgtFinal dt circ gc values raw1 S i j =
      qgtFinal dt circ gc values raw2 S i j := by
  suffices hpre : ∀ i j : ℕ, qgtPre dt circ gc values raw1 S i j =
      qgtPre dt circ gc values raw2 S i j by
    simp only [qgtFinal, symmetryCompletion, triuStrict, hpre]
  intro i j
  by_cases hg : i ≤ j ∧ j < (parameterIndices circ S).length
  · obtain ⟨hij, hjn⟩ := hg
    have hin : i < (parameterIndices circ S).length := lt_of_le_of_lt hij hjn
    have hp : (parameterIndices circ S).getD i 0 ∈ parameterIndices circ S := by
      rw [List.getD_eq_getElem _ _ hin]
      exact List.getElem_mem _
    have hq : (parameterIndices circ S).getD j 0 ∈ parameterIndices circ S := by
      rw [List.getD_eq_getElem _ _ hjn]
      exact List.getElem_mem _
    obtain ⟨x, hx⟩ := List.length_eq_one.mp (hsingle _ hp)
    obtain ⟨y, hy⟩ := List.length_eq_one.mp (hsingle _ hq)
    have hm := hmono i j hij hjn
    rw [hx, hy] at hm
    simp only [List.getD_cons_zero] at hm
    have hterms : pairTerms circ gc values raw1 S
        ((parameterIndices circ S).getD i 0)
        ((parameterIndices circ S).getD j 0) =
      pairTerms circ gc values raw2 S
        ((parameterIndices circ S).getD i 0)
        ((parameterIndices circ S).getD j 0) := by
      unfold pairTerms
      rw [hx, hy]
      simp [hagree _ _ hm]
    simp only [qgtPre]
    rw [if_pos ⟨hij, hjn⟩, if_pos ⟨hij, hjn⟩, hterms]
  · simp [qgtPre, hg]

/-- Witness for the amended claim C1 at a concrete monotone singleton
instance: the two raw tensors differ below the diagonal yet the completed
entry `(1, 0)` agrees. -/
theorem c1_upper_triangle_when_singleton_monotone_witness :
    qgtFinal DerivativeType.REAL exCircuitC1w exGradC1w [0, 0] exRawC1wa
        [0, 1] 1 0 =
      qgtFinal DerivativeType.REAL exCircuitC1w exGradC1w [0, 0] exRawC1wb
        [0, 1] 1 0 :=
  c1_upper_triangle_when_singleton_monotone DerivativeType.REAL exCircuitC1w
    exGradC1w [0, 0] [0, 1] exRawC1wa exRawC1wb
    (by decide)
    (by
      intro i j hij hjn
      have hi : i < 2 := by
        have : j < 2 := by simpa [parameterIndices, exCircuitC1w] using hjn
        omega
      have hj : j < 2 := by simpa [parameterIndices, exCircuitC1w] using hjn
      interval_cases i <;> interval_cases j <;> decide)
    (by
      intro u v huv
      simp [exRawC1wa, exRawC1wb, huv])
    1 0

/-- Claim C9: a bare circuit passed to `run` is wrapped into a one-element
tuple before validation and processing, so the call behaves exactly like a
call with the one-element list. -/
theorem c9_single_circuit_wrapped (c : Circuit)
    (parameter_values : List (List α))
    (parameters : Option (List (Option (List ℕ)))) :
    runFlexible (CircuitsArg.single c) parameter_values parameters =
      runFlexible (CircuitsArg.many [c]) parameter_values parameters := rfl

theorem any_congr_of_mem {p q : ℕ → Bool} :
    ∀ (l : List ℕ), (∀ a ∈ l, p a = q a) → l.any p = l.any q
  | [], _ => rfl
  | x :: t, h => by
    simp only [List.any_cons, h x (by simp),
      any_congr_of_mem t (fun a ha => h a (by simp [ha]))]

theorem gradientParameterSet_ext (gc : GradientCircuit α) {S1 S2 : List ℕ}
    (h : ∀ p : ℕ, p ∈ S1 ↔ p ∈ S2) (g : ℕ) :
    gradientParameterSet gc S1 g = gradientParameterSet gc S2 g := by
  unfold gradientParameterSet
  have h1 : S1.any (fun p => ((gc.parameter_map p).map Prod.fst).contains g)
      = true ↔
      S2.any (fun p => ((gc.parameter_map p).map Prod.fst).contains g)
      = true := by
    simp only [List.any_eq_true]
    constructor
    · rintro ⟨p, hp, hg⟩; exact ⟨p, (h p).mp hp, hg⟩
    · rintro ⟨p, hp, hg⟩; exact ⟨p, (h p).mpr hp, hg⟩
  cases hb : S1.any (fun p => ((gc.parameter_map p).map Prod.fst).contains g)
  · cases hb2 : S2.any
        (fun p => ((gc.parameter_map p).map Prod.fst).contains g)
    · rfl
    · rw [hb, hb2] at h1; simp at h1
  · cases hb2 : S2.any
        (fun p => ((gc.parameter_map p).map Prod.fst).contains g)
    · rw [hb, hb2] at h1; simp at h1
    · rfl

theorem parameterIndices_ext (circ : Circuit) {S1 S2 : List ℕ}
    (h : ∀ p : ℕ, p ∈ S1 ↔ p ∈ S2) :
    parameterIndices circ S1 = parameterIndices circ S2 := by
  unfold parameterIndices
  refine List.filter_congr (fun p _ => ?_)
  have hiff := h p
  by_cases h1 : p ∈ S1
  · have e1 : S1.contains p = true := by simpa using h1
    have e2 : S2.contains p = true := by simpa using hiff.mp h1
    rw [e1, e2]
  · have h2 : p ∉ S2 := fun hp => h1 (hiff.mpr hp)
    have e1 : S1.contains p = false := by simpa using h1
    have e2 : S2.contains p = false := by simpa using h2
    rw [e1, e2]

theorem gParameterIndices_ext (gc : GradientCircuit α) {S1 S2 : List ℕ}
    (h : ∀ p : ℕ, p ∈ S1 ↔ p ∈ S2) :
    gParameterIndices gc S1 = gParameterIndices gc S2 := by
  unfold gParameterIndices
  exact List.filter_congr (fun g _ => gradientParameterSet_ext gc h g)

/-- Claim C10: the result tensor and its ordered label list depend only on
the set of distinct requested parameters (as `run` converts the request with
`set(...)` and `_postprocess` only membership-tests it), and the labels are
the requested parameters in the circuit's declared order. -/
theorem c10_requested_set_only (dt : DerivativeType) (circ : Circuit)
    (gc : GradientCircuit α) (values : List α) (raw : ℕ → ℕ → CC α)
    (S1 S2 : List ℕ) (h : ∀ p : ℕ, p ∈ S1 ↔ p ∈ S2) :
    (∀ i j : ℕ, qgtFinal dt circ gc values raw S1 i j =
      qgtFinal dt circ gc values raw S2 i j) ∧
    parameterIndices circ S1 = parameterIndices circ S2 ∧
    parameterIndices circ S1 = circ.params.filter (fun p => S1.contains p) := by
  have h1 := parameterIndices_ext circ h
  have h2 := gParameterIndices_ext gc h
  refine ⟨fun i j => ?_, h1, rfl⟩
  simp only [qgtFinal, symmetryCompletion, triuStrict, qgtPre, pairTerms,
    gIdx, h1, h2]

/-- Witness for claim C10: listing the requested parameters as `[1, 0, 0]`
or `[0, 1]` yields the same entries and the same declared-order labels. -/
theorem c10_requested_set_only_witness :
    qgtFinal DerivativeType.COMPLEX exCircuitC10 exGradC10 [0, 0] exRawC10
        [1, 0, 0] 0 1 =
      qgtFinal DerivativeType.COMPLEX exCircuitC10 exGradC10 [0, 0] exRawC10
        [0, 1] 0 1 ∧
    parameterIndices exCircuitC10 [1, 0, 0] =
      parameterIndices exCircuitC10 [0, 1] :=
  ⟨(c10_requested_set_only DerivativeType.COMPLEX exCircuitC10 exGradC10
      [0, 0] exRawC10 [1, 0, 0] [0, 1]
      (by intro p; constructor <;> intro hp <;> simp_all <;> tauto)).1 0 1,
    (c10_requested_set_only DerivativeType.COMPLEX exCircuitC10 exGradC10
      [0, 0] exRawC10 [1, 0, 0] [0, 1]
      (by intro p; constructor <;> intro hp <;> simp_all <;> tauto)).2.1⟩

/-- Claim C7: the gradient-circuit cache of `_preprocess` is deterministic:
after processing a circuit, processing any circuit with the same structural
key returns the cached entry unchanged, performs no rebuild, and leaves the
cache untouched. -/
theorem c7_cache_determinism (build : Circuit → GradientCircuit α)
    (cache : List (ℕ × GradientCircuit α)) (c1 c2 : Circuit)
    (h : c2.key = c1.key) :
    preprocessStep build (preprocessStep build cache c1).2 c2 =
      (((preprocessStep build cache c1).1.1, false),
        (preprocessStep build cache c1).2) := by
  cases hl : cache.lookup c1.key with
  | some g => simp [preprocessStep, hl, h]
  | none => simp [preprocessStep, hl, h, List.lookup]

/-- Witness for claim C7 at concrete circuits with equal structural keys. -/
theorem c7_cache_determinism_witness :
    preprocessStep exBuild (preprocessStep exBuild [] exCircuitC7a).2
        exCircuitC7b =
      (((preprocessStep exBuild [] exCircuitC7a).1.1, false),
        (preprocessStep exBuild [] exCircuitC7a).2) :=
  c7_cache_determinism exBuild [] exCircuitC7a exCircuitC7b rfl

theorem validateLoop_error_iff (k : ℕ) (l : List (Circuit × List α)) :
    (∃ e, validateLoop k l = Except.error e) ↔
      ∃ cv ∈ l, cv.1.params.length = 0 ∨ cv.2.length ≠ cv.1.params.length := by
  induction l generalizing k with
  | nil => simp [validateLoop]
  | cons cv t ih =>
    obtain ⟨c, v⟩ := cv
    constructor
    · rintro ⟨e, he⟩
      by_cases h0 : c.params.length = 0
      · exact ⟨(c, v), by simp, Or.inl h0⟩
      · by_cases h1 : v.length ≠ c.params.length
        · exact ⟨(c, v), by simp, Or.inr h1⟩
        · have ht : validateLoop (k + 1) t = Except.error e := by
            simpa [validateLoop, h0, h1] using he
          obtain ⟨cv2, hm, hprop⟩ := (ih (k + 1)).mp ⟨e, ht⟩
          exact ⟨cv2, by simp [hm], hprop⟩
    · rintro ⟨cv2, hm, hprop⟩
      by_cases h0 : c.params.length = 0
      · exact ⟨ValidationError.unparameterized k, by simp [validateLoop, h0]⟩
      · by_cases h1 : v.length ≠ c.params.length
        · exact ⟨ValidationError.valuesCountMismatch k v.length
            c.params.length, by simp [validateLoop, h0, h1]⟩
        · rcases List.mem_cons.mp hm with heq | hmt
          · rcases hprop with hz | hlen
            · rw [heq] at hz; exact absurd hz h0
            · rw [heq] at hlen; exact absurd hlen h1
          · obtain ⟨e, he⟩ := (ih (k + 1)).mpr ⟨cv2, hmt, hprop⟩
            exact ⟨e, by simp [validateLoop, h0, h1, he]⟩

theorem validateLoop_unparameterized {i : ℕ} :
    ∀ {k : ℕ} {l : List (Circuit × List α)},
      validateLoop k l = Except.error (ValidationError.unparameterized i) →
      ∃ cv ∈ l, cv.1.params.length = 0 := by
  intro k l
  induction l generalizing k with
  | nil => intro h; simp [validateLoop] at h
  | cons cv t ih =>
    obtain ⟨c, v⟩ := cv
    intro h
    by_cases h0 : c.params.length = 0
    · exact ⟨(c, v), by simp, h0⟩
    · by_cases h1 : v.length ≠ c.params.length
      · simp [validateLoop, h0, h1] at h
      · have ht : validateLoop (k + 1) t =
            Except.error (ValidationError.unparameterized i) := by
          simpa [validateLoop, h0, h1] using h
        obtain ⟨cv2, hm, hfor⟩ := ih ht
        exact ⟨cv2, by simp [hm], hfor⟩

theorem validateLoop_valuesCount {i nv np : ℕ} :
    ∀ {k : ℕ} {l : List (Circuit × List α)},
      validateLoop k l =
        Except.error (ValidationError.valuesCountMismatch i nv np) →
      nv ≠ np ∧ ∃ cv ∈ l, cv.2.length ≠ cv.1.params.length := by
  intro k l
  induction l generalizing k with
  | nil => intro h; simp [validateLoop] at h
  | cons cv t ih =>
    obtain ⟨c, v⟩ := cv
    intro h
    by_cases h0 : c.params.length = 0
    · simp [validateLoop, h0] at h
    · by_cases h1 : v.length ≠ c.params.length
      · have he : v.length = nv ∧ c.params.length = np := by
          have := h
          simp [validateLoop, h0, h1] at this
          exact ⟨this.2.1, this.2.2⟩
        refine ⟨?_, (c, v), by simp, h1⟩
        rw [← he.1, ← he.2]
        exact h1
      · have ht : validateLoop (k + 1) t =
            Except.error (ValidationError.valuesCountMismatch i nv np) := by
          simpa [validateLoop, h0, h1] using h
        obtain ⟨hne, cv2, hm, hfor⟩ := ih ht
        exact ⟨hne, cv2, by simp [hm], hfor⟩

theorem validateLoop_kinds {e : ValidationError} :
    ∀ {k : ℕ} {l : List (Circuit × List α)},
      validateLoop k l = Except.error e →
      (∃ i, e = ValidationError.unparameterized i) ∨
        ∃ i nv np, e = ValidationError.valuesCountMismatch i nv np := by
  intro k l
  induction l generalizing k with
  | nil => intro h; simp [validateLoop] at h
  | cons cv t ih =>
    obtain ⟨c, v⟩ := cv
    intro h
    by_cases h0 : c.params.length = 0
    · simp [validateLoop, h0] at h
      exact Or.inl ⟨k, h.symm⟩
    · by_cases h1 : v.length ≠ c.params.length
      · simp [validateLoop, h0, h1] at h
        exact Or.inr ⟨k, v.length, c.params.length, h.symm⟩
      · exact ih (by simpa [validateLoop, h0, h1] using h)

theorem pipeline_error_of_validate {cs : List Circuit} {vs : List (List α)}
    {ss : List (List ℕ)} {e : ValidationError}
    (build : Circuit → GradientCircuit α)
    (cache : List (ℕ × GradientCircuit α))
    (h : validateArguments cs vs ss = Except.error e) :
    pipeline build cache cs vs ss = (Except.error e, cache, []) := by
  simp [pipeline, h]

/-- Claim C6: `run` fails with a `ValueError` exactly when the request list
lengths disagree or some bound-value sequence's length differs from its
circuit's declared parameter count or some circuit declares zero parameters;
the unparameterized and count-mismatch kinds are only raised under their own
conditions; and any such error is surfaced before any cache insertion or
oracle interaction, failing the whole batch. -/
theorem c6_validation_preflight (cs : List Circuit) (vs : List (List α))
    (ss : List (List ℕ)) (build : Circuit → GradientCircuit α)
    (cache : List (ℕ × GradientCircuit α)) :
    ((∃ e, validateArguments cs vs ss = Except.error e) ↔
      (cs.length ≠ vs.length ∨ cs.length ≠ ss.length ∨
        ∃ cv ∈ cs.zip vs,
          cv.1.params.length = 0 ∨ cv.2.length ≠ cv.1.params.length)) ∧
    (∀ i, validateArguments cs vs ss =
        Except.error (ValidationError.unparameterized i) →
      ∃ cv ∈ cs.zip vs, cv.1.params.length = 0) ∧
    (∀ i nv np, validateArguments cs vs ss =
        Except.error (ValidationError.valuesCountMismatch i nv np) →
      nv ≠ np ∧ ∃ cv ∈ cs.zip vs, cv.2.length ≠ cv.1.params.length) ∧
    (∀ a b, validateArguments cs vs ss =
        Except.error (ValidationError.circuitsValuesMismatch a b) →
      cs.length ≠ vs.length) ∧
    (∀ a b, validateArguments cs vs ss =
        Except.error (ValidationError.circuitsSetsMismatch a b) →
      cs.length ≠ ss.length) ∧
    (∀ e, validateArguments cs vs ss = Except.error e →
      pipeline build cache cs vs ss = (Except.error e, cache, [])) := by
  by_cases hl1 : cs.length = vs.length
  · by_cases hl2 : cs.length = ss.length
    · have hv : validateArguments cs vs ss = validateLoop 0 (cs.zip vs) := by
        unfold validateArguments
        rw [if_neg (by omega), if_neg (by omega)]
      refine ⟨?_, ?_, ?_, ?_, ?_,
        fun e he => pipeline_error_of_validate build cache he⟩
      · rw [hv, validateLoop_error_iff]
        have hl3 : vs.length = ss.length := by omega
        simp [hl1, hl3]
      · intro i h; rw [hv] at h; exact validateLoop_unparameterized h
      · intro i nv np h; rw [hv] at h; exact validateLoop_valuesCount h
      · intro a b h
        rw [hv] at h
        rcases validateLoop_kinds h with ⟨i, he⟩ | ⟨i, nv, np, he⟩ <;>
          simp at he
      · intro a b h
        rw [hv] at h
        rcases validateLoop_kinds h with ⟨i, he⟩ | ⟨i, nv, np, he⟩ <;>
          simp at he
    · have hl3 : vs.length ≠ ss.length := by omega
      refine ⟨?_, ?_, ?_, ?_, ?_,
        fun e he => pipeline_error_of_validate build cache he⟩ <;>
        simp [validateArguments, hl1, hl3]
  · refine ⟨?_, ?_, ?_, ?_, ?_,
      fun e he => pipeline_error_of_validate build cache he⟩ <;>
      simp [validateArguments, hl1]

/-- Witness for claim C6: a batch of one circuit with no bound-value
sequences fails validation with a length-mismatch error and reaches neither
the cache nor the oracle. -/
theorem c6_validation_preflight_witness :
    pipeline exBuild [] [⟨[0], 0⟩] ([] : List (List ℤ)) [] =
      (Except.error (ValidationError.circuitsValuesMismatch 1 0), [], []) :=
  (c6_validation_preflight [⟨[0], 0⟩] ([] : List (List ℤ)) [] exBuild
    []).2.2.2.2.2 _ rfl

theorem indexOf_filter_le_iff (f : ℕ → Bool) :
    ∀ {l : List ℕ}, l.Nodup → ∀ {a b : ℕ}, a ∈ l.filter f → b ∈ l.filter f →
      ((l.filter f).indexOf a ≤ (l.filter f).indexOf b ↔
        l.indexOf a ≤ l.indexOf b)
  | [], _, a, b, ha, _ => by simp at ha
  | x :: t, hnd, a, b, ha, hb => by
    rw [List.nodup_cons] at hnd
    obtain ⟨hx, hnd2⟩ := hnd
    by_cases hfx : f x
    · have hfil : (x :: t).filter f = x :: t.filter f := by
        simp [List.filter_cons, hfx]
      rw [hfil] at ha hb ⊢
      by_cases hax : a = x
      · subst hax
        rw [List.indexOf_cons_self, List.indexOf_cons_self]
        simp
      · have hxa : x ≠ a := fun h => hax h.symm
        have ha2 : a ∈ t.filter f := by
          rcases List.mem_cons.mp ha with h | h
          · exact absurd h hax
          · exact h
        by_cases hbx : b = x
        · subst hbx
          rw [List.indexOf_cons_self, List.indexOf_cons_self,
            List.indexOf_cons_ne _ hxa, List.indexOf_cons_ne _ hxa]
          simp
        · have hxb : x ≠ b := fun h => hbx h.symm
          have hb2 : b ∈ t.filter f := by
            rcases List.mem_cons.mp hb with h | h
            · exact absurd h hbx
            · exact h
          rw [List.indexOf_cons_ne _ hxa, List.indexOf_cons_ne _ hxb,
            List.indexOf_cons_ne _ hxa, List.indexOf_cons_ne _ hxb,
            Nat.succ_le_succ_iff, Nat.succ_le_succ_iff]
          exact indexOf_filter_le_iff f hnd2 ha2 hb2
    · have hfil : (x :: t).filter f = t.filter f := by
        simp [List.filter_cons, hfx]
      rw [hfil] at ha hb ⊢
      have hat : a ∈ t := (List.mem_filter.mp ha).1
      have hbt : b ∈ t := (List.mem_filter.mp hb).1
      have hxa : x ≠ a := fun h => hx (h ▸ hat)
      have hxb : x ≠ b := fun h => hx (h ▸ hbt)
      rw [List.indexOf_cons_ne _ hxa, List.indexOf_cons_ne _ hxb,
        Nat.succ_le_succ_iff]
      exact indexOf_filter_le_iff f hnd2 ha hb

theorem parameterIndices_full (circ : Circuit) :
    parameterIndices circ circ.params = circ.params := by
  unfold parameterIndices
  apply List.filter_eq_self.mpr
  intro a ha
  simpa using ha

theorem gradientParameterSet_of_mem {gc : GradientCircuit α} {S : List ℕ}
    {p g : ℕ} {c : Coeff α} (hp : p ∈ S) (hg : (g, c) ∈ gc.parameter_map p) :
    gradientParameterSet gc S g = true := by
  unfold gradientParameterSet
  rw [List.any_eq_true]
  refine ⟨p, hp, ?_⟩
  have hex : ∃ x : Coeff α, (g, x) ∈ gc.parameter_map p := ⟨c, hg⟩
  simpa using hex

theorem mem_gParameterIndices {gc : GradientCircuit α} {S : List ℕ} {g : ℕ}
    (hg : g ∈ gc.gParams) (hset : gradientParameterSet gc S g = true) :
    g ∈ gParameterIndices gc S :=
  List.mem_filter.mpr ⟨hg, hset⟩

theorem pairTerms_agree (circ : Circuit) (gc : GradientCircuit α)
    (values : List α) (rawS rawF : ℕ → ℕ → CC α) (S : List ℕ)
    (hmapg : ∀ p ∈ circ.params, ∀ gp ∈ gc.parameter_map p, gp.1 ∈ gc.gParams)
    (hagree : ∀ g1 ∈ gParameterIndices gc S, ∀ g2 ∈ gParameterIndices gc S,
      rawS (gIdx gc S g1) (gIdx gc S g2) =
        rawF (gIdx gc circ.params g1) (gIdx gc circ.params g2))
    {p q : ℕ} (hp : p ∈ parameterIndices circ S)
    (hq : q ∈ parameterIndices circ S) :
    pairTerms circ gc values rawS S p q =
      pairTerms circ gc values rawF circ.params p q := by
  have hpc : p ∈ circ.params := (List.mem_filter.mp hp).1
  have hqc : q ∈ circ.params := (List.mem_filter.mp hq).1
  have hpS : p ∈ S := by simpa using (List.mem_filter.mp hp).2
  have hqS : q ∈ S := by simpa using (List.mem_filter.mp hq).2
  unfold pairTerms
  refine List.flatMap_congr (fun g1 hg1 => ?_)
  refine List.map_eq_map_iff.mpr (fun g2 hg2 => ?_)
  have hm1 : g1.1 ∈ gParameterIndices gc S :=
    mem_gParameterIndices (hmapg p hpc g1 hg1)
      (gradientParameterSet_of_mem hpS hg1)
  have hm2 : g2.1 ∈ gParameterIndices gc S :=
    mem_gParameterIndices (hmapg q hqc g2 hg2)
      (gradientParameterSet_of_mem hqS hg2)
  rw [hagree g1.1 hm1 g2.1 hm2]

theorem qgtPre_subset_agree (dt : DerivativeType) (circ : Circuit)
    (gc : GradientCircuit α) (values : List α)
    (rawS rawF : ℕ → ℕ → CC α) (S : List ℕ) (hnd : circ.params.Nodup)
    (hmapg : ∀ p ∈ circ.params, ∀ gp ∈ gc.parameter_map p, gp.1 ∈ gc.gParams)
    (hagree : ∀ g1 ∈ gParameterIndices gc S, ∀ g2 ∈ gParameterIndices gc S,
      rawS (gIdx gc S g1) (gIdx gc S g2) =
        rawF (gIdx gc circ.params g1) (gIdx gc circ.params g2))
    (p q : ℕ) (hp : p ∈ parameterIndices circ S)
    (hq : q ∈ parameterIndices circ S) :
    qgtPre dt circ gc values rawS S ((parameterIndices circ S).indexOf p)
        ((parameterIndices circ S).indexOf q) =
      qgtPre dt circ gc values rawF circ.params (circ.params.indexOf p)
        (circ.params.indexOf q) := by
  have hpc : p ∈ circ.params := (List.mem_filter.mp hp).1
  have hqc : q ∈ circ.params := (List.mem_filter.mp hq).1
  have hfull : parameterIndices circ circ.params = circ.params :=
    parameterIndices_full circ
  have hle := indexOf_filter_le_iff (fun r => S.contains r) hnd hp hq
  by_cases hij : (parameterIndices circ S).indexOf p ≤
      (parameterIndices circ S).indexOf q
  · have hij2 : circ.params.indexOf p ≤ circ.params.indexOf q := hle.mp hij
    have hgS : (parameterIndices circ S).indexOf p ≤
        (parameterIndices circ S).indexOf q ∧
        (parameterIndices circ S).indexOf q <
          (parameterIndices circ S).length :=
      ⟨hij, List.indexOf_lt_length.mpr hq⟩
    have hgF : circ.params.indexOf p ≤ circ.params.indexOf q ∧
        circ.params.indexOf q < (parameterIndices circ circ.params).length :=
      ⟨hij2, by rw [hfull]; exact List.indexOf_lt_length.mpr hqc⟩
    have e1 : (parameterIndices circ S).getD
        ((parameterIndices circ S).indexOf p) 0 = p := by
      rw [List.getD_eq_getElem _ _ (List.indexOf_lt_length.mpr hp)]
      exact List.getElem_indexOf _
    have e2 : (parameterIndices circ S).getD
        ((parameterIndices circ S).indexOf q) 0 = q := by
      rw [List.getD_eq_getElem _ _ (List.indexOf_lt_length.mpr hq)]
      exact List.getElem_indexOf _
    have e3 : (parameterIndices circ circ.params).getD
        (circ.params.indexOf p) 0 = p := by
      rw [hfull, List.getD_eq_getElem _ _ (List.indexOf_lt_length.mpr hpc)]
      exact List.getElem_indexOf _
    have e4 : (parameterIndices circ circ.params).getD
        (circ.params.indexOf q) 0 = q := by
      rw [hfull, List.getD_eq_getElem _ _ (List.indexOf_lt_length.mpr hqc)]
      exact List.getElem_indexOf _
    simp only [qgtPre]
    rw [if_pos hgS, if_pos hgF, e1, e2, e3, e4]
    exact congrArg (accumulate dt)
      (pairTerms_agree circ gc values rawS rawF S hmapg hagree hp hq)
  · have hij2 : ¬circ.params.indexOf p ≤ circ.params.indexOf q :=
      fun hl => hij (hle.mpr hl)
    have hgS : ¬((parameterIndices circ S).indexOf p ≤
        (parameterIndices circ S).indexOf q ∧
        (parameterIndices circ S).indexOf q <
          (parameterIndices circ S).length) := fun hg => hij hg.1
    have hgF : ¬(circ.params.indexOf p ≤ circ.params.indexOf q ∧
        circ.params.indexOf q <
          (parameterIndices circ circ.params).length) := fun hg => hij2 hg.1
    simp only [qgtPre]
    rw [if_neg hgS, if_neg hgF]

/-- Claim C8: for any requested subset `S`, the result tensor is the
principal submatrix of the full-request result tensor, provided the two raw
tensors agree on the entries indexed by the duplicated parameters shared by
the two requests, the circuit's parameters are distinct, and the parameter
map only mentions duplicated parameters of the gradient circuit. -/
theorem c8_subset_consistency (dt : DerivativeType) (circ : Circuit)
    (gc : GradientCircuit α) (values : List α)
    (rawS rawF : ℕ → ℕ → CC α) (S : List ℕ) (hnd : circ.params.Nodup)
    (hmapg : ∀ p ∈ circ.params, ∀ gp ∈ gc.parameter_map p, gp.1 ∈ gc.gParams)
    (hagree : ∀ g1 ∈ gParameterIndices gc S, ∀ g2 ∈ gParameterIndices gc S,
      rawS (gIdx gc S g1) (gIdx gc S g2) =
        rawF (gIdx gc circ.params g1) (gIdx gc circ.params g2))
    (p q : ℕ) (hp : p ∈ parameterIndices circ S)
    (hq : q ∈ parameterIndices circ S) :
    qgtFinal dt circ gc values rawS S ((parameterIndices circ S).indexOf p)
        ((parameterIndices circ S).indexOf q) =
      qgtFinal dt circ gc values rawF circ.params (circ.params.indexOf p)
        (circ.params.indexOf q) := by
  have hle := indexOf_filter_le_iff (fun r => S.contains r) hnd hp hq
  by_cases hij : (parameterIndices circ S).indexOf q <
      (parameterIndices circ S).indexOf p
  · have hij0 : ¬(parameterIndices circ S).indexOf p ≤
        (parameterIndices circ S).indexOf q := by omega
    have hij1 : ¬circ.params.indexOf p ≤ circ.params.indexOf q :=
      fun hl => hij0 (hle.mpr hl)
    have hij2 : circ.params.indexOf q < circ.params.indexOf p := by omega
    rw [qgtFinal_lower _ _ _ _ _ _ hij, qgtFinal_lower _ _ _ _ _ _ hij2,
      qgtPre_subset_agree dt circ gc values rawS rawF S hnd hmapg hagree
        q p hq hp]
  · have hijS : (parameterIndices circ S).indexOf p ≤
        (parameterIndices circ S).indexOf q := by omega
    have hijF : circ.params.indexOf p ≤ circ.params.indexOf q := hle.mp hijS
    rw [qgtFinal_upper _ _ _ _ _ _ hijS, qgtFinal_upper _ _ _ _ _ _ hijF]
    exact qgtPre_subset_agree dt circ gc values rawS rawF S hnd hmapg hagree
      p q hp hq

/-- Witness for claim C8: the subset request `S = \x7bb\x7d` reproduces the
`(b, b)` entry of the full request. -/
theorem c8_subset_consistency_witness :
    qgtFinal DerivativeType.COMPLEX exCircuitC8 exGradC8 [0, 0] exRawSubC8 [1]
        ((parameterIndices exCircuitC8 [1]).indexOf 1)
        ((parameterIndices exCircuitC8 [1]).indexOf 1) =
      qgtFinal DerivativeType.COMPLEX exCircuitC8 exGradC8 [0, 0] exRawFullC8
        exCircuitC8.params (exCircuitC8.params.indexOf 1)
        (exCircuitC8.params.indexOf 1) :=
  c8_subset_consistency DerivativeType.COMPLEX exCircuitC8 exGradC8 [0, 0]
    exRawSubC8 exRawFullC8 [1] (by decide) (by decide) (by decide) 1 1
    (by decide) (by decide)

/-- Claim C2 counterexample: with the scenario's upper triangle
`[[1,2,3],[_,4,5],[_,_,6]]` but the unspecified lower triangle left at zero,
`ResultTensor[a,a]` is `7`, not the claimed `9`: the outcome depends on the
lower-triangle fill. -/
theorem c2_counterexample :
    (exRawZeroLower 0 0 = ⟨1, 0⟩ ∧ exRawZeroLower 0 1 = ⟨2, 0⟩ ∧
      exRawZeroLower 0 2 = ⟨3, 0⟩ ∧ exRawZeroLower 1 1 = ⟨4, 0⟩ ∧
      exRawZeroLower 1 2 = ⟨5, 0⟩ ∧ exRawZeroLower 2 2 = ⟨6, 0⟩) ∧
    qgtFinal DerivativeType.REAL exCircuitC2 exGradC2 [0, 0] exRawZeroLower
        [0, 1] 0 0 = ⟨7, 0⟩ ∧
    qgtFinal DerivativeType.REAL exCircuitC2 exGradC2 [0, 0] exRawZeroLower
        [0, 1] 0 0 ≠ ⟨9, 0⟩ := by
  decide

/-- Claim C2, amended: in the end-to-end scenario the expected values
`ResultTensor = [[9, 8], [8, 6]]` are produced when the raw tensor's lower
triangle is filled with the Hermitian transpose of the specified upper
triangle, because the aggregation also reads the entries `(a2, a1)` below
the diagonal. -/
theorem c2_end_to_end_hermitian_raw :
    qgtFinal DerivativeType.REAL exCircuitC2 exGradC2 [0, 0] exRawHermitian
        [0, 1] 0 0 = ⟨9, 0⟩ ∧
    qgtFinal DerivativeType.REAL exCircuitC2 exGradC2 [0, 0] exRawHermitian
        [0, 1] 0 1 = ⟨8, 0⟩ ∧
    qgtFinal DerivativeType.REAL exCircuitC2 exGradC2 [0, 0] exRawHermitian
        [0, 1] 1 0 = ⟨8, 0⟩ ∧
    qgtFinal DerivativeType.REAL exCircuitC2 exGradC2 [0, 0] exRawHermitian
        [0, 1] 1 1 = ⟨6, 0⟩ ∧
    parameterIndices exCircuitC2 [0, 1] = [0, 1] := by
  decide
